import Mathlib

/-!
Verification of the Deep Q-Learning Lunar Lander training notebook
(`Lunar_Lander.ipynb`).

The notebook's core is embedded shallowly:
* tensors over a batch of size `n` become functions `Fin n → ℚ`;
* the replay buffer (`collections.deque(maxlen=MEMORY_SIZE)`) becomes a
  `List` with an evicting append;
* the training loop becomes structural recursion on a fuel argument,
  with the Gym environment and the action-selection policy supplied as
  oracles;
* helpers that live in the external `utils` module (not part of the
  sources) are modelled from the specification, and are marked as such
  in their doc comments.
-/

namespace LunarLander

/-! ## Hyperparameters (notebook cell `Hyperparameters`) -/

/-- `MEMORY_SIZE = 100_000` — size of memory buffer. -/
def MEMORY_SIZE : ℕ := 100000

/-- `GAMMA = 0.995` — discount factor. -/
def GAMMA : ℚ := 995 / 1000

/-- `NUM_STEPS_FOR_UPDATE = 4` — perform a learning update every C time steps. -/
def NUM_STEPS_FOR_UPDATE : ℕ := 4

/-! ## Experience tuples

`experience = namedtuple("Experience", field_names=["state", "action",
"reward", "next_state", "done"])`. States are 8-float vectors; we model
them as rational lists. -/

structure Experience where
  state : List ℚ
  action : ℕ
  reward : ℚ
  next_state : List ℚ
  done : Bool
  deriving Repr, DecidableEq, Inhabited

/-! ## Replay buffer

`memory_buffer = deque(maxlen=MEMORY_SIZE)`; `memory_buffer.append(e)`
appends at the back and, when the deque is full, evicts the front
element first. -/

/-- `deque.append` with a `maxlen`: append at the back, dropping from the
front whatever exceeds the capacity. -/
def dequeAppend {α : Type} (maxlen : ℕ) (buf : List α) (x : α) : List α :=
  let b := buf ++ [x]
  if maxlen < b.length then b.drop (b.length - maxlen) else b

/-- Inserting a whole sequence, oldest first, into a bounded deque. -/
def dequeAppendAll {α : Type} (maxlen : ℕ) (buf : List α) (xs : List α) : List α :=
  xs.foldl (dequeAppend maxlen) buf

/-- The `n` most recent elements of a list, in order. -/
def lastN {α : Type} (n : ℕ) (l : List α) : List α :=
  l.drop (l.length - n)

/-! ## compute_loss (notebook cell `compute_loss`)

```
states, actions, rewards, next_states, done_vals = experiences
max_qsa = tf.reduce_max(target_q_network(next_states), axis=-1)
y_targets = rewards + (1 - done_vals) * (gamma * max_qsa)
q_values = q_network(states)
q_values = tf.gather_nd(q_values, tf.stack([tf.range(q_values.shape[0]),
                                            tf.cast(actions, tf.int32)], axis=1))
loss = MSE(y_targets, q_values)
```

A network is an oracle `σ → List ℚ` from a state to the vector of
per-action values. -/

/-- `tf.reduce_max(·, axis=-1)` on one row: the maximum entry of the
value vector. -/
def reduceMax : List ℚ → ℚ
  | [] => 0
  | x :: xs => xs.foldl max x

/-- `tf.gather_nd` for one row: pick the entry at the action's index. -/
def gatherNd (v : List ℚ) (i : ℕ) : ℚ := v.getD i 0

/-- `tf.keras.losses.MSE`: mean of the squared differences across the batch. -/
def mse {n : ℕ} (yTrue yPred : Fin n → ℚ) : ℚ :=
  (∑ j, (yTrue j - yPred j) ^ 2) / n

/-- Shallow embedding of the notebook's `compute_loss`. -/
def compute_loss {σ : Type} {n : ℕ}
    (states : Fin n → σ) (actions : Fin n → ℕ) (rewards : Fin n → ℚ)
    (next_states : Fin n → σ) (done_vals : Fin n → ℚ) (gamma : ℚ)
    (q_network target_q_network : σ → List ℚ) : ℚ :=
  let max_qsa : Fin n → ℚ := fun j => reduceMax (target_q_network (next_states j))
  let y_targets : Fin n → ℚ := fun j => rewards j + (1 - done_vals j) * (gamma * max_qsa j)
  let q_values : Fin n → ℚ := fun j => gatherNd (q_network (states j)) (actions j)
  mse y_targets q_values

/-! ## utils helpers, modelled from the spec

The notebook imports a `utils` module that is not among the sources;
only its call sites appear in the notebook. The definitions below are
modelled from the specification's description of these helpers. -/

/-- Error raised when sampling a buffer that holds fewer elements than
the requested batch size. -/
inductive SampleError where
  | insufficientData
  deriving Repr, DecidableEq

/-- Modelled from the spec: the distinct-index draw inside
`utils.get_experiences` — `batch_size` elements drawn uniformly at
random from the externally seeded random source `r`, with replacement
disallowed within a single sample call. Each round picks one of the
still-available indices and removes it. -/
def sampleIdxs (r : ℕ → ℕ) : ℕ → List ℕ → List ℕ
  | 0, _ => []
  | k + 1, rem =>
    let x := rem.getD (r k % rem.length) 0
    x :: sampleIdxs r k (rem.erase x)

/-- The indices a successful sample draws from a buffer: `batchSize`
distinct positions among `0, …, buf.length - 1`. -/
def sampleIdxsOf (r : ℕ → ℕ) (buf : List Experience) (batchSize : ℕ) : List ℕ :=
  sampleIdxs r batchSize (List.range buf.length)

/-- The experiences at the sampled indices. -/
def sampledExps (r : ℕ → ℕ) (buf : List Experience) (batchSize : ℕ) : List Experience :=
  (sampleIdxsOf r buf batchSize).map fun i => buf.getD i default

/-- Modelled from the spec: `utils.get_experiences(memory_buffer)` —
fails with `InsufficientDataError` if the current size is below the
batch size, otherwise returns the sampled experiences as five parallel
sequences (states, actions, rewards, next_states, done flags). -/
def get_experiences (r : ℕ → ℕ) (buf : List Experience) (batchSize : ℕ) :
    Except SampleError (List (List ℚ) × List ℕ × List ℚ × List (List ℚ) × List Bool) :=
  if buf.length < batchSize then .error .insufficientData
  else
    let exps := sampledExps r buf batchSize
    .ok (exps.map Experience.state, exps.map Experience.action,
         exps.map Experience.reward, exps.map Experience.next_state,
         exps.map Experience.done)

/-- Modelled from the spec: `utils.check_update_conditions(t, C,
memory_buffer)` — true iff the step counter is a multiple of the update
interval AND the buffer holds at least a batch of experiences. -/
def check_update_conditions (t C bufLen batchSize : ℕ) : Bool :=
  t % C == 0 && batchSize ≤ bufLen

/-- Floor of the epsilon-greedy exploration rate (`epsilon_min = 0.01`). -/
def E_MIN : ℚ := 1 / 100

/-- Geometric decay rate of epsilon (`decay_rate = 0.995`). -/
def E_DECAY : ℚ := 995 / 1000

/-- Modelled from the spec: `utils.get_new_eps(epsilon)` — geometric
decay with a floor, `max(epsilon_min, decay_rate * epsilon)`. -/
def get_new_eps (epsilon : ℚ) : ℚ := max E_MIN (E_DECAY * epsilon)

/-- Soft-update rate of the target network (`τ`, e.g. `0.001`). -/
def TAU : ℚ := 1 / 1000

/-- Modelled from the spec: `utils.update_target_network(q_network,
target_q_network)` — element-wise exponential smoothing of the target
parameters toward the primary parameters,
`target_param = τ * primary_param + (1-τ) * target_param`.
Parameter collections are indexed by an abstract coordinate type `P`. -/
def update_target_network {P : Type} (tau : ℚ) (qWeights targetWeights : P → ℚ) :
    P → ℚ :=
  fun p => tau * qWeights p + (1 - tau) * targetWeights p

/-! ## Parameter evolution across learning steps

`target_q_network.set_weights(q_network.get_weights())` runs once
before the training loop; after that every learning step ends in
`utils.update_target_network`. `p n` is the primary parameter vector
as of learning step `n` (the gradient updates themselves are opaque). -/

/-- The target parameters after `n` learning steps: a τ=1 copy of the
primary parameters at step 0, then one soft update per learning step. -/
def targetSeq {P : Type} (tau : ℚ) (p : ℕ → P → ℚ) : ℕ → P → ℚ
  | 0 => p 0
  | n + 1 => update_target_network tau (p (n + 1)) (targetSeq tau p n)

/-- The convex weight that `targetSeq` puts on the primary parameters of
learning step `i` after `n` learning steps. -/
def convexWeight (tau : ℚ) (n i : ℕ) : ℚ :=
  if i = 0 then (1 - tau) ^ n else tau * (1 - tau) ^ (n - i)

/-! ## State-passing view of `compute_loss` and `agent_learn`

To state frame properties the two networks' weight collections are
threaded explicitly. `forward w` is the network's forward pass under
weight collection `w`; `compute_loss` only ever calls the forward
passes, while `agent_learn` first applies the optimizer's gradient
step to the primary weights and then the soft update to the target
weights. -/

structure Networks (W : Type) where
  qWeights : W
  targetWeights : W

/-- `compute_loss` as a transformer of the weight state: it returns the
loss together with the (untouched) weight collections, because every
operation in its body — the two forward passes, `reduce_max`,
`gather_nd`, the arithmetic and `MSE` — is a pure tensor computation. -/
def computeLossSt {W σ : Type} {n : ℕ} (forward : W → σ → List ℚ)
    (states : Fin n → σ) (actions : Fin n → ℕ) (rewards : Fin n → ℚ)
    (next_states : Fin n → σ) (done_vals : Fin n → ℚ) (gamma : ℚ)
    (nets : Networks W) : ℚ × Networks W :=
  (compute_loss states actions rewards next_states done_vals gamma
     (forward nets.qWeights) (forward nets.targetWeights), nets)

/-- `agent_learn` as a transformer of the weight state: apply the
gradient step (`optimizer.apply_gradients`, abstracted as `gradStep`,
which consumes the loss gradient) to the primary weights, then the soft
update to the target weights. -/
def agentLearnSt {P : Type} (tau : ℚ) (gradStep : (P → ℚ) → P → ℚ)
    (nets : Networks (P → ℚ)) : Networks (P → ℚ) :=
  let q' := gradStep nets.qWeights
  { qWeights := q', targetWeights := update_target_network tau q' nets.targetWeights }

/-! ## The training loop (notebook cell `Train the Agent`)

The Gym environment is an oracle: for episode `i`, `env i t` yields the
`(next_state, reward, done)` triple returned by `env.step` at time step
`t`, and `reset i` the initial state of `env.reset()`. Action selection
(`utils.get_action`, epsilon-greedy over the live `q_network` output) is
the oracle `act i t`. The network updates performed by `agent_learn`
are opaque to the loop; the loop model records each learning event as
the pair of the step index and the buffer handed to
`utils.get_experiences`, together with the experience appended at that
step. -/

/-- What `env.step(action)` returns, minus the unused `info`. -/
structure EnvStep where
  next_state : List ℚ
  reward : ℚ
  done : Bool
  deriving Repr, DecidableEq

/-- The loop-owned state of one episode's inner `for t in range(...)`. -/
structure InnerState where
  state : List ℚ
  buffer : List Experience
  totalPoints : ℚ
  learnEvents : List (ℕ × Experience × List Experience)
  deriving Repr, DecidableEq

/-- One iteration of the inner loop body, in source order: step the
environment, append the experience to the memory buffer, evaluate
`check_update_conditions` (learning samples the just-updated buffer),
advance the state and accumulate the reward. -/
def innerStep (env : ℕ → EnvStep) (act : ℕ → ℕ) (batchSize t : ℕ)
    (s : InnerState) : InnerState :=
  let st := env t
  let e : Experience := ⟨s.state, act t, st.reward, st.next_state, st.done⟩
  let buf := dequeAppend MEMORY_SIZE s.buffer e
  let update := check_update_conditions t NUM_STEPS_FOR_UPDATE buf.length batchSize
  { state := st.next_state
    buffer := buf
    totalPoints := s.totalPoints + st.reward
    learnEvents := if update then s.learnEvents ++ [(t, e, buf)] else s.learnEvents }

/-- The inner loop: run up to `fuel` more iterations starting at step
index `t`, breaking after the iteration whose environment step reports
`done` (the break comes last in the body, after the buffer append and
the possible learning update). -/
def runInner (env : ℕ → EnvStep) (act : ℕ → ℕ) (batchSize : ℕ) :
    ℕ → ℕ → InnerState → InnerState
  | 0, _, s => s
  | fuel + 1, t, s =>
    let s' := innerStep env act batchSize t s
    if (env t).done then s' else runInner env act batchSize fuel (t + 1) s'

/-- The inner state at episode start: `state = env.reset()`,
`total_points = 0`, the buffer carried over from previous episodes. -/
def initInner (state0 : List ℚ) (buf : List Experience) : InnerState :=
  ⟨state0, buf, 0, []⟩

/-- The rewards the environment hands out over the steps the inner loop
actually executes: up to `fuel` steps, stopping at the first `done`. -/
def episodeRewards (env : ℕ → EnvStep) : ℕ → ℕ → List ℚ
  | 0, _ => []
  | fuel + 1, t =>
    if (env t).done then [(env t).reward]
    else (env t).reward :: episodeRewards env fuel (t + 1)

/-- `num_episodes = 2000`. -/
def num_episodes : ℕ := 2000

/-- `max_num_timesteps = 1000`. -/
def max_num_timesteps : ℕ := 1000

/-- `np.mean(total_point_history[-num_p_av:])` with `num_p_av = 100`:
the mean of the most recent (at most) 100 episode rewards. -/
def movingAvg (hist : List ℚ) : ℚ :=
  (lastN 100 hist).sum / (lastN 100 hist).length

/-- The loop-owned state across episodes. `savedCount` counts the calls
to `q_network.save(...)`; `solved` records whether the convergence break
was taken. -/
structure OuterState where
  history : List ℚ
  epsilon : ℚ
  buffer : List Experience
  savedCount : ℕ
  solved : Bool

/-- The oracles and sizes a training run consumes. -/
structure TrainConfig where
  env : ℕ → ℕ → EnvStep
  reset : ℕ → List ℚ
  act : ℕ → ℕ → ℕ
  batchSize : ℕ

/-- One iteration of the outer episode loop, in source order: run the
episode, append `total_points` to the history, compute the moving
average of the last 100 entries, decay epsilon, and if the moving
average reaches 200.0 save the network and mark the run solved. -/
def runEpisodeStep (cfg : TrainConfig) (i : ℕ) (s : OuterState) : OuterState :=
  let inner := runInner (cfg.env i) (cfg.act i) cfg.batchSize
    max_num_timesteps 0 (initInner (cfg.reset i) s.buffer)
  let hist := s.history ++ [inner.totalPoints]
  let av := movingAvg hist
  let eps := get_new_eps s.epsilon
  if 200 ≤ av then
    { history := hist, epsilon := eps, buffer := inner.buffer,
      savedCount := s.savedCount + 1, solved := true }
  else
    { history := hist, epsilon := eps, buffer := inner.buffer,
      savedCount := s.savedCount, solved := false }

/-- The outer loop: up to `fuel` more episodes starting at episode `i`,
breaking once an episode ends solved. Exhausting the episode budget
without convergence just returns the final state. -/
def runOuter (cfg : TrainConfig) : ℕ → ℕ → OuterState → OuterState
  | 0, _, s => s
  | fuel + 1, i, s =>
    let s' := runEpisodeStep cfg i s
    if s'.solved then s' else runOuter cfg fuel (i + 1) s'

/-- The outer state before the first episode: empty history and buffer,
`epsilon = 1.0`, nothing saved. -/
def initOuter : OuterState :=
  { history := [], epsilon := 1, buffer := [], savedCount := 0, solved := false }

/-- The whole training run of the notebook's final cell. -/
def train (cfg : TrainConfig) : OuterState :=
  runOuter cfg num_episodes 0 initOuter

/-- The epsilon value after `k` completed episodes: `epsilon = 1.0`
initially, then one `utils.get_new_eps` per episode. -/
def epsSeq : ℕ → ℚ
  | 0 => 1
  | k + 1 => get_new_eps (epsSeq k)

/-! ## Concrete sample data (used by witness instantiations) -/

/-- A concrete non-terminal experience. -/
def exA : Experience := ⟨[0, 0, 0, 0, 0, 0, 0, 0], 2, 5, [1, 0, 0, 0, 0, 0, 0, 0], false⟩

/-- A concrete terminal experience. -/
def exB : Experience := ⟨[1, 0, 0, 0, 0, 0, 0, 0], 0, 100, [0, 0, 0, 0, 0, 0, 0, 0], true⟩

/-- The experience generated by a one-step episode of the concrete
environment used in witness instantiations. -/
def eW : Experience := ⟨[0], 3, 2, [1], true⟩

/-- A concrete training configuration: every episode ends after one
step with reward 250 (above the solve threshold). -/
def cfgW : TrainConfig :=
  { env := fun _ _ => ⟨[], 250, true⟩
    reset := fun _ => []
    act := fun _ _ => 0
    batchSize := 64 }

/-! ## Replay-buffer lemmas -/

theorem lastN_length {α : Type} (n : ℕ) (l : List α) :
    (lastN n l).length = min l.length n := by
  simp only [lastN, List.length_drop]
  omega

theorem lastN_of_le {α : Type} {n : ℕ} {l : List α} (h : l.length ≤ n) :
    lastN n l = l := by
  simp only [lastN]
  rw [Nat.sub_eq_zero_of_le h, List.drop_zero]

theorem dequeAppend_eq_lastN {α : Type} (m : ℕ) (buf : List α) (x : α) :
    dequeAppend m buf x = lastN m (buf ++ [x]) := by
  simp only [dequeAppend, lastN]
  split
  · rfl
  · next h =>
    rw [Nat.sub_eq_zero_of_le (by omega), List.drop_zero]

theorem lastN_append_lastN {α : Type} (m : ℕ) (l xs : List α) :
    lastN m (lastN m l ++ xs) = lastN m (l ++ xs) := by
  have h1 : lastN m l ++ xs = (l ++ xs).drop (l.length - m) := by
    rw [List.drop_append_eq_append_drop, Nat.sub_eq_zero_of_le (Nat.sub_le _ _),
      List.drop_zero]
    rfl
  simp only [lastN] at h1 ⊢
  rw [h1, List.drop_drop]
  congr 1
  simp only [List.length_append, List.length_drop]
  omega

theorem dequeAppendAll_eq_lastN {α : Type} (m : ℕ) :
    ∀ (xs buf : List α), buf.length ≤ m →
      dequeAppendAll m buf xs = lastN m (buf ++ xs)
  | [], buf, h => by
    simp only [dequeAppendAll, List.foldl_nil, List.append_nil]
    exact (lastN_of_le h).symm
  | x :: xs, buf, h => by
    simp only [dequeAppendAll, List.foldl_cons]
    rw [show List.foldl (dequeAppend m) (dequeAppend m buf x) xs
        = dequeAppendAll m (dequeAppend m buf x) xs from rfl]
    rw [dequeAppend_eq_lastN,
      dequeAppendAll_eq_lastN m xs _ (by rw [lastN_length]; omega),
      lastN_append_lastN]
    simp

/-- C2: the replay buffer never exceeds its capacity and always holds
exactly the most recently inserted experiences, in insertion order. -/
theorem memory_buffer_fifo (xs : List Experience) :
    (dequeAppendAll MEMORY_SIZE [] xs).length ≤ MEMORY_SIZE ∧
      dequeAppendAll MEMORY_SIZE [] xs = lastN MEMORY_SIZE xs := by
  have h := dequeAppendAll_eq_lastN MEMORY_SIZE xs [] (by simp)
  simp only [List.nil_append] at h
  refine ⟨?_, h⟩
  rw [h, lastN_length]
  omega

/-! ## compute_loss: the target/prediction computation -/

/-- C1: `compute_loss` returns the mean squared error between the
bootstrapped targets and the gathered predictions: `y_j = reward_j`
exactly when `done_j` holds (the bootstrap term is zeroed out,
independently of `gamma` and of the target network's output), else
`y_j = reward_j + gamma * max_a target_network(next_state_j)[a]`, and
`q_j = q_network(state_j)[action_j]`, gathered by the taken action's
index. -/
theorem compute_loss_correct {σ : Type} {n : ℕ}
    (states : Fin n → σ) (actions : Fin n → ℕ) (rewards : Fin n → ℚ)
    (next_states : Fin n → σ) (dones : Fin n → Bool) (done_vals : Fin n → ℚ)
    (gamma : ℚ) (q_network target_q_network : σ → List ℚ)
    (hdv : ∀ j, done_vals j = if dones j then 1 else 0) :
    compute_loss states actions rewards next_states done_vals gamma
        q_network target_q_network =
      mse (fun j => if dones j then rewards j
            else rewards j + gamma * reduceMax (target_q_network (next_states j)))
        (fun j => gatherNd (q_network (states j)) (actions j)) := by
  unfold compute_loss
  dsimp only
  congr 1
  funext j
  rw [hdv j]
  cases h : dones j <;> simp [h]

/-- Witness for C1: a batch of two transitions — the first not done with
reward 5, discount 0.995 and target values [1,2,3,4] (target 8.98), the
second done with reward 100 (target exactly 100). -/
theorem compute_loss_correct_witness :
    (∀ j : Fin 2, (![0, 1] : Fin 2 → ℚ) j
        = if (![false, true] : Fin 2 → Bool) j then 1 else 0) ∧
      compute_loss (![exA.state, exB.state]) (![2, 0]) (![5, 100])
          (![exA.next_state, exB.next_state]) (![0, 1]) GAMMA
          (fun _ => [10, 20, 30, 40]) (fun _ => [1, 2, 3, 4]) =
        mse (fun j => if (![false, true] : Fin 2 → Bool) j
              then (![5, 100] : Fin 2 → ℚ) j
              else (![5, 100] : Fin 2 → ℚ) j
                + GAMMA * reduceMax ((fun _ : List ℚ => [1, 2, 3, 4])
                    ((![exA.next_state, exB.next_state]) j)))
          (fun j => gatherNd ((fun _ : List ℚ => [10, 20, 30, 40])
              ((![exA.state, exB.state]) j)) ((![2, 0] : Fin 2 → ℕ) j)) :=
  ⟨by decide, compute_loss_correct (![exA.state, exB.state]) (![2, 0]) (![5, 100])
    (![exA.next_state, exB.next_state]) (![false, true]) (![0, 1]) GAMMA
    (fun _ => [10, 20, 30, 40]) (fun _ => [1, 2, 3, 4]) (by decide)⟩

/-! ## Sampling lemmas -/

theorem sampleIdxs_spec (r : ℕ → ℕ) :
    ∀ (k : ℕ) (rem : List ℕ), rem.Nodup → k ≤ rem.length →
      (sampleIdxs r k rem).length = k ∧ (sampleIdxs r k rem).Nodup ∧
        ∀ x ∈ sampleIdxs r k rem, x ∈ rem
  | 0, rem, _, _ => by simp [sampleIdxs]
  | k + 1, rem, hnd, hk => by
    have hlen : 0 < rem.length := by omega
    have hmem : rem.getD (r k % rem.length) 0 ∈ rem := by
      rw [List.getD_eq_getElem _ _ (Nat.mod_lt _ hlen)]
      exact List.getElem_mem _
    have heq : sampleIdxs r (k + 1) rem
        = rem.getD (r k % rem.length) 0
          :: sampleIdxs r k (rem.erase (rem.getD (r k % rem.length) 0)) := rfl
    set x := rem.getD (r k % rem.length) 0 with hx
    have herase_len : (rem.erase x).length = rem.length - 1 :=
      List.length_erase_of_mem hmem
    have ih := sampleIdxs_spec r k (rem.erase x) (hnd.erase x) (by omega)
    rw [heq]
    refine ⟨by simp [ih.1], List.nodup_cons.mpr ⟨?_, ih.2.1⟩, ?_⟩
    · intro hxin
      exact ((hnd.mem_erase_iff.mp (ih.2.2 x hxin)).1) rfl
    · intro y hy
      rcases List.mem_cons.mp hy with h | h
      · exact h ▸ hmem
      · exact List.erase_subset _ _ (ih.2.2 y h)

/-- C3: sampling a buffer smaller than the batch size always fails with
`InsufficientDataError`; sampling a buffer of size at least the batch
size always succeeds with exactly `batchSize` elements drawn at
pairwise-distinct in-range indices, returned as five parallel sequences
of length `batchSize` each. -/
theorem get_experiences_correct (r : ℕ → ℕ) (buf : List Experience) (batchSize : ℕ) :
    (buf.length < batchSize →
      get_experiences r buf batchSize = .error .insufficientData) ∧
    (batchSize ≤ buf.length →
      (sampleIdxsOf r buf batchSize).Nodup ∧
      (sampleIdxsOf r buf batchSize).length = batchSize ∧
      (∀ i ∈ sampleIdxsOf r buf batchSize, i < buf.length) ∧
      get_experiences r buf batchSize =
        .ok ((sampledExps r buf batchSize).map Experience.state,
             (sampledExps r buf batchSize).map Experience.action,
             (sampledExps r buf batchSize).map Experience.reward,
             (sampledExps r buf batchSize).map Experience.next_state,
             (sampledExps r buf batchSize).map Experience.done) ∧
      ((sampledExps r buf batchSize).map Experience.state).length = batchSize ∧
      ((sampledExps r buf batchSize).map Experience.action).length = batchSize ∧
      ((sampledExps r buf batchSize).map Experience.reward).length = batchSize ∧
      ((sampledExps r buf batchSize).map Experience.next_state).length = batchSize ∧
      ((sampledExps r buf batchSize).map Experience.done).length = batchSize) := by
  constructor
  · intro h
    simp only [get_experiences, if_pos h]
  · intro h
    have hs := sampleIdxs_spec r batchSize (List.range buf.length)
      (List.nodup_range _) (by rw [List.length_range]; exact h)
    have hidx : ∀ i ∈ sampleIdxsOf r buf batchSize, i < buf.length := by
      intro i hi
      exact List.mem_range.mp (hs.2.2 i hi)
    have hlen : (sampledExps r buf batchSize).length = batchSize := by
      simp [sampledExps, sampleIdxsOf, hs.1]
    refine ⟨hs.2.1, hs.1, hidx, ?_, ?_, ?_, ?_, ?_, ?_⟩ <;>
      simp [get_experiences, Nat.not_lt.mpr h, hlen]

/-- Witness for C3: a two-element buffer sampled with batch size 1. -/
theorem get_experiences_correct_witness :
    1 ≤ ([exA, exB] : List Experience).length ∧
      ((sampleIdxsOf (fun _ => 0) [exA, exB] 1).Nodup ∧
       (sampleIdxsOf (fun _ => 0) [exA, exB] 1).length = 1 ∧
       (∀ i ∈ sampleIdxsOf (fun _ => 0) [exA, exB] 1, i < ([exA, exB] : List Experience).length) ∧
       get_experiences (fun _ => 0) [exA, exB] 1 =
         .ok ((sampledExps (fun _ => 0) [exA, exB] 1).map Experience.state,
              (sampledExps (fun _ => 0) [exA, exB] 1).map Experience.action,
              (sampledExps (fun _ => 0) [exA, exB] 1).map Experience.reward,
              (sampledExps (fun _ => 0) [exA, exB] 1).map Experience.next_state,
              (sampledExps (fun _ => 0) [exA, exB] 1).map Experience.done) ∧
       ((sampledExps (fun _ => 0) [exA, exB] 1).map Experience.state).length = 1 ∧
       ((sampledExps (fun _ => 0) [exA, exB] 1).map Experience.action).length = 1 ∧
       ((sampledExps (fun _ => 0) [exA, exB] 1).map Experience.reward).length = 1 ∧
       ((sampledExps (fun _ => 0) [exA, exB] 1).map Experience.next_state).length = 1 ∧
       ((sampledExps (fun _ => 0) [exA, exB] 1).map Experience.done).length = 1) :=
  ⟨by decide, (get_experiences_correct (fun _ => 0) [exA, exB] 1).2 (by decide)⟩

/-! ## Target-network soft-update lemmas -/

theorem convexWeight_succ (tau : ℚ) {n i : ℕ} (h : i < n + 1) :
    convexWeight tau (n + 1) i = (1 - tau) * convexWeight tau n i := by
  by_cases hi : i = 0
  · simp only [convexWeight, hi, if_true, ite_true, eq_self_iff_true]
    rw [pow_succ]
    ring
  · simp only [convexWeight, if_neg hi]
    rw [show n + 1 - i = (n - i) + 1 by omega, pow_succ]
    ring

theorem convexWeight_self (tau : ℚ) (n : ℕ) :
    convexWeight tau (n + 1) (n + 1) = tau := by
  simp [convexWeight]

theorem convexWeight_sum (tau : ℚ) :
    ∀ n : ℕ, ∑ i ∈ Finset.range (n + 1), convexWeight tau n i = 1
  | 0 => by simp [convexWeight]
  | n + 1 => by
    rw [Finset.sum_range_succ, convexWeight_self,
      Finset.sum_congr rfl fun i hi => convexWeight_succ tau (Finset.mem_range.mp hi),
      ← Finset.mul_sum, convexWeight_sum tau n]
    ring

theorem convexWeight_nonneg {tau : ℚ} (h0 : 0 ≤ tau) (h1 : tau ≤ 1) (n i : ℕ) :
    0 ≤ convexWeight tau n i := by
  have hb : (0 : ℚ) ≤ 1 - tau := by linarith
  unfold convexWeight
  split
  · exact pow_nonneg hb _
  · exact mul_nonneg h0 (pow_nonneg hb _)

theorem targetSeq_eq_convex {P : Type} (tau : ℚ) (p : ℕ → P → ℚ) :
    ∀ (n : ℕ) (x : P), targetSeq tau p n x
      = ∑ i ∈ Finset.range (n + 1), convexWeight tau n i * p i x
  | 0, x => by simp [targetSeq, convexWeight]
  | n + 1, x => by
    have h : targetSeq tau p (n + 1) x
        = tau * p (n + 1) x + (1 - tau) * targetSeq tau p n x := rfl
    have hc : ∑ i ∈ Finset.range (n + 1), convexWeight tau (n + 1) i * p i x
        = (1 - tau) * ∑ i ∈ Finset.range (n + 1), convexWeight tau n i * p i x := by
      rw [Finset.mul_sum]
      refine Finset.sum_congr rfl fun i hi => ?_
      rw [convexWeight_succ tau (Finset.mem_range.mp hi)]
      ring
    rw [h, targetSeq_eq_convex tau p n x,
      Finset.sum_range_succ (fun i => convexWeight tau (n + 1) i * p i x) (n + 1),
      convexWeight_self, hc]
    ring

/-- C4: the target network starts as a τ=1 copy of the primary
(`target_q_network.set_weights(q_network.get_weights())`), each learning
step soft-updates it element-wise by
`target = τ * primary + (1-τ) * target`, and hence after `n` learning
steps every target parameter is a convex combination — nonnegative
weights summing to 1 — of the primary parameter's values at steps
`0, …, n`: the target trails and never gets ahead of the primary. -/
theorem target_network_sync (P : Type) (tau : ℚ) (p : ℕ → P → ℚ)
    (h0 : 0 ≤ tau) (h1 : tau ≤ 1) :
    (∀ x, targetSeq tau p 0 x = p 0 x) ∧
    (∀ n x, targetSeq tau p (n + 1) x
      = tau * p (n + 1) x + (1 - tau) * targetSeq tau p n x) ∧
    (∀ n x, targetSeq tau p n x
      = ∑ i ∈ Finset.range (n + 1), convexWeight tau n i * p i x) ∧
    (∀ n i, 0 ≤ convexWeight tau n i) ∧
    (∀ n : ℕ, ∑ i ∈ Finset.range (n + 1), convexWeight tau n i = 1) :=
  ⟨fun _ => rfl, fun _ _ => rfl, targetSeq_eq_convex tau p,
    convexWeight_nonneg h0 h1, convexWeight_sum tau⟩

/-- Witness for C4: the notebook's τ = 0.001 with a scalar parameter
trace `p n = n`. -/
theorem target_network_sync_witness :
    (0 ≤ TAU ∧ TAU ≤ 1) ∧
      ((∀ x : Unit, targetSeq TAU (fun n _ => (n : ℚ)) 0 x = (0 : ℕ)) ∧
       (∀ (n : ℕ) (x : Unit), targetSeq TAU (fun n _ => (n : ℚ)) (n + 1) x
         = TAU * (n + 1 : ℕ) + (1 - TAU) * targetSeq TAU (fun n _ => (n : ℚ)) n x) ∧
       (∀ (n : ℕ) (x : Unit), targetSeq TAU (fun n _ => (n : ℚ)) n x
         = ∑ i ∈ Finset.range (n + 1), convexWeight TAU n i * (i : ℚ)) ∧
       (∀ n i, 0 ≤ convexWeight TAU n i) ∧
       (∀ n : ℕ, ∑ i ∈ Finset.range (n + 1), convexWeight TAU n i = 1)) :=
  ⟨⟨by norm_num [TAU], by norm_num [TAU]⟩,
    target_network_sync Unit TAU (fun n _ => (n : ℚ)) (by norm_num [TAU]) (by norm_num [TAU])⟩

/-! ## Epsilon-schedule lemmas -/

theorem E_DECAY_nonneg : (0 : ℚ) ≤ E_DECAY := by norm_num [E_DECAY]

theorem E_DECAY_le_one : E_DECAY ≤ 1 := by norm_num [E_DECAY]

theorem E_MIN_nonneg : (0 : ℚ) ≤ E_MIN := by norm_num [E_MIN]

theorem epsSeq_closed_form : ∀ k : ℕ, epsSeq k = max E_MIN (E_DECAY ^ k)
  | 0 => by
    rw [show epsSeq 0 = 1 from rfl, pow_zero, max_eq_right (by norm_num [E_MIN])]
  | k + 1 => by
    rw [show epsSeq (k + 1) = get_new_eps (epsSeq k) from rfl, epsSeq_closed_form k,
      get_new_eps, mul_max_of_nonneg _ _ E_DECAY_nonneg, ← pow_succ', ← max_assoc,
      max_eq_left (mul_le_of_le_one_left E_MIN_nonneg E_DECAY_le_one)]

/-- C5: epsilon starts at 1.0 and each episode applies
`max(epsilon_min, decay_rate * epsilon)` with floor 0.01 and rate 0.995;
the sequence is monotonically non-increasing, never drops below 0.01,
equals `max(0.01, 0.995^k)` after `k` episodes, and in particular equals
`max(0.01, 0.995^918)` after 918 episodes. -/
theorem epsilon_decay_schedule :
    epsSeq 0 = 1 ∧
    (∀ k, epsSeq (k + 1) = max E_MIN (E_DECAY * epsSeq k)) ∧
    (∀ k, epsSeq (k + 1) ≤ epsSeq k) ∧
    (∀ k, E_MIN ≤ epsSeq k) ∧
    (∀ k, epsSeq k = max E_MIN (E_DECAY ^ k)) ∧
    epsSeq 918 = max (1 / 100) ((995 / 1000 : ℚ) ^ 918) := by
  have hmono : ∀ k, epsSeq (k + 1) ≤ epsSeq k := by
    intro k
    rw [epsSeq_closed_form k, epsSeq_closed_form (k + 1)]
    exact max_le_max le_rfl
      (pow_le_pow_of_le_one E_DECAY_nonneg E_DECAY_le_one (Nat.le_succ k))
  refine ⟨rfl, fun k => rfl, hmono, ?_, epsSeq_closed_form, ?_⟩
  · intro k
    rw [epsSeq_closed_form k]
    exact le_max_left _ _
  · rw [epsSeq_closed_form 918]
    rfl

/-! ## Inner-loop lemmas: update condition and append-before-learn -/

theorem dequeAppend_getLast {α : Type} {m : ℕ} (hm : 1 ≤ m) (buf : List α) (x : α) :
    (dequeAppend m buf x).getLast? = some x := by
  have h : (buf ++ [x]).length - m - buf.length = 0 := by
    simp only [List.length_append, List.length_singleton]
    omega
  rw [dequeAppend_eq_lastN]
  simp only [lastN]
  rw [List.drop_append_eq_append_drop, h, List.drop_zero, List.getLast?_concat]

/-- C6: a learning step runs at a time step exactly when the step index
is a multiple of `NUM_STEPS_FOR_UPDATE = 4` AND the (just-appended)
buffer holds at least `batchSize` experiences; otherwise the step
records no learning event. -/
theorem update_condition_iff :
    (∀ t bufLen batchSize : ℕ,
      check_update_conditions t NUM_STEPS_FOR_UPDATE bufLen batchSize = true ↔
        t % 4 = 0 ∧ batchSize ≤ bufLen) ∧
    (∀ (env : ℕ → EnvStep) (act : ℕ → ℕ) (batchSize t : ℕ) (s : InnerState),
      (innerStep env act batchSize t s).learnEvents.length =
        s.learnEvents.length +
          if check_update_conditions t NUM_STEPS_FOR_UPDATE
              (dequeAppend MEMORY_SIZE s.buffer
                ⟨s.state, act t, (env t).reward, (env t).next_state, (env t).done⟩).length
              batchSize
          then 1 else 0) := by
  constructor
  · intro t bufLen batchSize
    simp [check_update_conditions, NUM_STEPS_FOR_UPDATE]
  · intro env act batchSize t s
    have he : (innerStep env act batchSize t s).learnEvents
        = if check_update_conditions t NUM_STEPS_FOR_UPDATE
              (dequeAppend MEMORY_SIZE s.buffer
                ⟨s.state, act t, (env t).reward, (env t).next_state, (env t).done⟩).length
              batchSize
          then s.learnEvents ++ [(t, ⟨s.state, act t, (env t).reward, (env t).next_state,
                (env t).done⟩,
              dequeAppend MEMORY_SIZE s.buffer
                ⟨s.state, act t, (env t).reward, (env t).next_state, (env t).done⟩)]
          else s.learnEvents := rfl
    rw [he]
    split <;> simp

theorem runInner_events_sound (env : ℕ → EnvStep) (act : ℕ → ℕ) (batchSize : ℕ) :
    ∀ (fuel t : ℕ) (s : InnerState),
      (∀ ev ∈ s.learnEvents, ev.2.2.getLast? = some ev.2.1) →
      ∀ ev ∈ (runInner env act batchSize fuel t s).learnEvents,
        ev.2.2.getLast? = some ev.2.1
  | 0, _, _, hs => hs
  | fuel + 1, t, s, hs => by
    have hstep : ∀ ev ∈ (innerStep env act batchSize t s).learnEvents,
        ev.2.2.getLast? = some ev.2.1 := by
      have he : (innerStep env act batchSize t s).learnEvents
          = if check_update_conditions t NUM_STEPS_FOR_UPDATE
                (dequeAppend MEMORY_SIZE s.buffer
                  ⟨s.state, act t, (env t).reward, (env t).next_state, (env t).done⟩).length
                batchSize
            then s.learnEvents ++ [(t, ⟨s.state, act t, (env t).reward, (env t).next_state,
                  (env t).done⟩,
                dequeAppend MEMORY_SIZE s.buffer
                  ⟨s.state, act t, (env t).reward, (env t).next_state, (env t).done⟩)]
            else s.learnEvents := rfl
      rw [he]
      split
      · intro ev hev
        rcases List.mem_append.mp hev with h | h
        · exact hs ev h
        · rw [List.mem_singleton.mp h]
          exact dequeAppend_getLast (by norm_num [MEMORY_SIZE]) _ _
      · exact hs
    have hr : runInner env act batchSize (fuel + 1) t s
        = if (env t).done then innerStep env act batchSize t s
          else runInner env act batchSize fuel (t + 1) (innerStep env act batchSize t s) := rfl
    rw [hr]
    split
    · exact hstep
    · exact runInner_events_sound env act batchSize fuel (t + 1) _ hstep

/-- C9: each step appends its experience to the buffer before the
update check and before any break on `done` — the just-appended
experience is the newest buffer entry — and consequently every learning
event of an episode samples a buffer whose most recent element is the
experience generated at that very step (terminal transitions included). -/
theorem append_before_update_and_break :
    (∀ (env : ℕ → EnvStep) (act : ℕ → ℕ) (batchSize t : ℕ) (s : InnerState),
      (innerStep env act batchSize t s).buffer.getLast?
        = some ⟨s.state, act t, (env t).reward, (env t).next_state, (env t).done⟩) ∧
    (∀ (env : ℕ → EnvStep) (act : ℕ → ℕ) (batchSize fuel t : ℕ)
        (state0 : List ℚ) (buf0 : List Experience),
      ∀ ev ∈ (runInner env act batchSize fuel t (initInner state0 buf0)).learnEvents,
        ev.2.2.getLast? = some ev.2.1) := by
  constructor
  · intro env act batchSize t s
    exact dequeAppend_getLast (by norm_num [MEMORY_SIZE]) _ _
  · intro env act batchSize fuel t state0 buf0
    exact runInner_events_sound env act batchSize fuel t _ (by simp [initInner])

/-- Witness for C9: a one-step terminal episode whose learning event
samples the buffer `[eW]` with `eW` as its newest element. -/
theorem append_before_update_witness :
    ((0, eW, [eW]) ∈ (runInner (fun _ => ⟨[1], 2, true⟩) (fun _ => 3) 1 1 0
        (initInner [0] [])).learnEvents) ∧
      (0, eW, [eW]).2.2.getLast? = some (0, eW, [eW]).2.1 :=
  ⟨by decide,
    append_before_update_and_break.2 (fun _ => ⟨[1], 2, true⟩) (fun _ => 3) 1 1 0 [0] []
      (0, eW, [eW]) (by decide)⟩

/-! ## Outer-loop lemmas: reward history and convergence -/

theorem runInner_totalPoints (env : ℕ → EnvStep) (act : ℕ → ℕ) (batchSize : ℕ) :
    ∀ (fuel t : ℕ) (s : InnerState),
      (runInner env act batchSize fuel t s).totalPoints
        = s.totalPoints + (episodeRewards env fuel t).sum
  | 0, t, s => by simp [runInner, episodeRewards]
  | fuel + 1, t, s => by
    have hstep : (innerStep env act batchSize t s).totalPoints
        = s.totalPoints + (env t).reward := rfl
    have hr : runInner env act batchSize (fuel + 1) t s
        = if (env t).done then innerStep env act batchSize t s
          else runInner env act batchSize fuel (t + 1) (innerStep env act batchSize t s) := rfl
    rw [hr]
    by_cases h : (env t).done
    · rw [if_pos h, hstep]
      simp [episodeRewards, if_pos h]
    · rw [if_neg h, runInner_totalPoints env act batchSize fuel (t + 1) _, hstep]
      simp only [episodeRewards, if_neg h, List.sum_cons]
      ring

theorem runEpisodeStep_history (cfg : TrainConfig) (i : ℕ) (s : OuterState) :
    (runEpisodeStep cfg i s).history
      = s.history ++ [(episodeRewards (cfg.env i) max_num_timesteps 0).sum] := by
  have h := runInner_totalPoints (cfg.env i) (cfg.act i) cfg.batchSize
    max_num_timesteps 0 (initInner (cfg.reset i) s.buffer)
  unfold runEpisodeStep
  dsimp only
  split <;> simp_all [initInner]

theorem runOuter_history (cfg : TrainConfig) :
    ∀ (fuel i : ℕ) (s : OuterState),
      ∃ k ≤ fuel, (runOuter cfg fuel i s).history
        = s.history ++ (List.range k).map
            (fun j => (episodeRewards (cfg.env (i + j)) max_num_timesteps 0).sum)
  | 0, i, s => ⟨0, le_refl 0, by simp [runOuter]⟩
  | fuel + 1, i, s => by
    have hr : runOuter cfg (fuel + 1) i s
        = if (runEpisodeStep cfg i s).solved then runEpisodeStep cfg i s
          else runOuter cfg fuel (i + 1) (runEpisodeStep cfg i s) := rfl
    rw [hr]
    by_cases h : (runEpisodeStep cfg i s).solved
    · refine ⟨1, by omega, ?_⟩
      rw [if_pos h, runEpisodeStep_history, show List.range 1 = [0] from rfl]
      simp
    · rw [if_neg h]
      obtain ⟨k, hk, hist⟩ := runOuter_history cfg fuel (i + 1) (runEpisodeStep cfg i s)
      refine ⟨k + 1, by omega, ?_⟩
      have htail : List.map
            (fun j => (episodeRewards (cfg.env (i + 1 + j)) max_num_timesteps 0).sum)
            (List.range k)
          = List.map ((fun j => (episodeRewards (cfg.env (i + j)) max_num_timesteps 0).sum)
              ∘ Nat.succ) (List.range k) := by
        refine List.map_congr_left fun j _ => ?_
        have hj : i + 1 + j = i + Nat.succ j := by omega
        simp only [Function.comp_apply]
        rw [hj]
      rw [hist, runEpisodeStep_history, List.append_assoc, List.singleton_append,
        List.range_succ_eq_map, List.map_cons, List.map_map, htail]
      simp

/-- C10: every completed episode appends exactly one value to the
episode-reward history — the sum of the step rewards the environment
returned during that episode (the accumulator starts at 0 and adds each
step's reward) — so after `k` completed episodes the history holds
exactly the `k` per-episode reward sums, in order. -/
theorem episode_reward_history :
    (∀ (env : ℕ → EnvStep) (act : ℕ → ℕ) (batchSize fuel t : ℕ) (s : InnerState),
      (runInner env act batchSize fuel t s).totalPoints
        = s.totalPoints + (episodeRewards env fuel t).sum) ∧
    (∀ (cfg : TrainConfig) (i : ℕ) (s : OuterState),
      (runEpisodeStep cfg i s).history
        = s.history ++ [(episodeRewards (cfg.env i) max_num_timesteps 0).sum]) ∧
    (∀ (cfg : TrainConfig) (fuel i : ℕ) (s : OuterState),
      ∃ k ≤ fuel, (runOuter cfg fuel i s).history
        = s.history ++ (List.range k).map
            (fun j => (episodeRewards (cfg.env (i + j)) max_num_timesteps 0).sum)) :=
  ⟨fun env act batchSize fuel t s => runInner_totalPoints env act batchSize fuel t s,
   runEpisodeStep_history, runOuter_history⟩

theorem runEpisodeStep_solved_iff (cfg : TrainConfig) (i : ℕ) (s : OuterState) :
    ((runEpisodeStep cfg i s).solved = true
      ↔ 200 ≤ movingAvg ((runEpisodeStep cfg i s).history)) := by
  unfold runEpisodeStep
  dsimp only
  split <;> rename_i h <;> simpa using h

theorem runEpisodeStep_savedCount (cfg : TrainConfig) (i : ℕ) (s : OuterState) :
    (runEpisodeStep cfg i s).savedCount
      = s.savedCount + (if (runEpisodeStep cfg i s).solved then 1 else 0) := by
  unfold runEpisodeStep
  dsimp only
  split <;> simp

theorem runOuter_savedCount (cfg : TrainConfig) :
    ∀ (fuel i : ℕ) (s : OuterState), s.savedCount = 0 →
      (runOuter cfg fuel i s).savedCount ≤ 1
  | 0, i, s, h => by simp [runOuter, h]
  | fuel + 1, i, s, h => by
    have hr : runOuter cfg (fuel + 1) i s
        = if (runEpisodeStep cfg i s).solved then runEpisodeStep cfg i s
          else runOuter cfg fuel (i + 1) (runEpisodeStep cfg i s) := rfl
    have hsc := runEpisodeStep_savedCount cfg i s
    rw [hr]
    by_cases hsol : (runEpisodeStep cfg i s).solved
    · rw [if_pos hsol]
      simp [hsc, hsol, h]
    · rw [if_neg hsol]
      refine runOuter_savedCount cfg fuel (i + 1) _ ?_
      simp [hsc, hsol, h]

/-- C7: at episode end the moving average is over the most recent
`min(100, history length)` rewards (over a nonempty window, since the
episode's reward was just appended, so no division by zero); the run is
marked converged and the parameters saved exactly when this average
reaches 200.0, the parameters are written at most once per run, and
exhausting the episode budget just returns the final state. -/
theorem convergence_and_save :
    (∀ hist : List ℚ, (lastN 100 hist).length = min hist.length 100) ∧
    (∀ hist : List ℚ, hist.length ≤ 100 → movingAvg hist = hist.sum / hist.length) ∧
    (∀ (cfg : TrainConfig) (i : ℕ) (s : OuterState),
      ((runEpisodeStep cfg i s).solved = true
        ↔ 200 ≤ movingAvg ((runEpisodeStep cfg i s).history)) ∧
      (runEpisodeStep cfg i s).savedCount
        = s.savedCount + (if (runEpisodeStep cfg i s).solved then 1 else 0) ∧
      0 < (runEpisodeStep cfg i s).history.length ∧
      0 < (lastN 100 (runEpisodeStep cfg i s).history).length) ∧
    (∀ (cfg : TrainConfig) (fuel i : ℕ) (s : OuterState),
      s.savedCount = 0 → (runOuter cfg fuel i s).savedCount ≤ 1) ∧
    (∀ cfg : TrainConfig, (train cfg).savedCount ≤ 1) ∧
    (∀ (cfg : TrainConfig) (i : ℕ) (s : OuterState), runOuter cfg 0 i s = s) := by
  refine ⟨lastN_length 100, ?_, ?_, runOuter_savedCount, ?_, fun _ _ s => rfl⟩
  · intro hist h
    unfold movingAvg
    rw [lastN_of_le h]
  · intro cfg i s
    have hh := runEpisodeStep_history cfg i s
    refine ⟨runEpisodeStep_solved_iff cfg i s, runEpisodeStep_savedCount cfg i s, ?_, ?_⟩
    · rw [hh]
      simp
    · rw [lastN_length, hh]
      simp
  · intro cfg
    exact runOuter_savedCount cfg num_episodes 0 initOuter rfl

/-- Witness for C7: a singleton history of 250 and a concrete run of two
episodes from the initial state. -/
theorem convergence_and_save_witness :
    (([(250 : ℚ)].length ≤ 100 ∧
        movingAvg [(250 : ℚ)] = [(250 : ℚ)].sum / [(250 : ℚ)].length)) ∧
      (initOuter.savedCount = 0 ∧ (runOuter cfgW 2 0 initOuter).savedCount ≤ 1) :=
  ⟨⟨by decide, convergence_and_save.2.1 [(250 : ℚ)] (by decide)⟩,
   ⟨rfl, convergence_and_save.2.2.2.1 cfgW 2 0 initOuter rfl⟩⟩

/-! ## Frame property of compute_loss -/

/-- C8: `compute_loss` is pure — threading the two networks' weight
collections through it returns them unchanged, and its value is a
function of the inputs alone; parameter mutation happens only in
`agent_learn`, which replaces the primary weights by the optimizer's
gradient step and then soft-updates the target weights. -/
theorem compute_loss_pure {W σ : Type} {n : ℕ} (forward : W → σ → List ℚ)
    (states : Fin n → σ) (actions : Fin n → ℕ) (rewards : Fin n → ℚ)
    (next_states : Fin n → σ) (done_vals : Fin n → ℚ) (gamma : ℚ)
    (nets : Networks W) :
    (computeLossSt forward states actions rewards next_states done_vals gamma nets).2
        = nets ∧
    (computeLossSt forward states actions rewards next_states done_vals gamma nets).1
        = compute_loss states actions rewards next_states done_vals gamma
            (forward nets.qWeights) (forward nets.targetWeights) ∧
    (∀ (P : Type) (tau : ℚ) (gradStep : (P → ℚ) → P → ℚ) (nets2 : Networks (P → ℚ)),
      (agentLearnSt tau gradStep nets2).qWeights = gradStep nets2.qWeights ∧
      (agentLearnSt tau gradStep nets2).targetWeights
        = update_target_network tau (gradStep nets2.qWeights) nets2.targetWeights) :=
  ⟨rfl, rfl, fun _ _ _ _ => ⟨rfl, rfl⟩⟩

end LunarLander
